import Mathlib

/-!
Shallow embedding of the ncr-bind-forms repository: the validator algebra of
src/unnamed/part_005 (the validators module), the directive glue of
src/projects/ncr-bind-forms/src/directives/shared.ts and
normalize_validator.ts, and the view/model synchronization pipeline that
shared.ts registers on a bound form control.

JavaScript values are modelled by the inductive type JSVal below.  Numbers are
modelled by the rationals (NaN and the infinities are not representable; where
the source can produce NaN, for instance parseFloat, the embedding uses
Option ℚ with none standing for NaN).  Objects and arrays are modelled
structurally; strict equality === on two object or array values is modelled as
false, matching reference comparison of freshly allocated objects.
-/

set_option maxHeartbeats 1000000

namespace NcrBindForms

/-- JSVal models the JavaScript values that flow through the forms module:
null, undefined, booleans, numbers (as rationals), strings, arrays and plain
objects (as association lists of fields). -/
inductive JSVal where
  | null : JSVal
  | undef : JSVal
  | bool (b : Bool) : JSVal
  | num (q : ℚ) : JSVal
  | str (s : String) : JSVal
  | arr (elems : List JSVal) : JSVal
  | obj (fields : List (String × JSVal)) : JSVal

/-- jsLooseNull models the loose comparison value == null, which holds exactly
for null and undefined. -/
def jsLooseNull : JSVal → Bool
  | .null => true
  | .undef => true
  | _ => false

/-- jsLength models reading the length property: strings and arrays have a
numeric length, every other value yields undefined (modelled as none). -/
def jsLength : JSVal → Option Nat
  | .str s => some s.length
  | .arr l => some l.length
  | _ => none

/-- jsTruthy models JavaScript boolean coercion: null, undefined, false, the
number zero and the empty string are falsy, everything else is truthy. -/
def jsTruthy : JSVal → Bool
  | .null => false
  | .undef => false
  | .bool b => b
  | .num q => !(q == 0)
  | .str s => !s.isEmpty
  | .arr _ => true
  | .obj _ => true

/-- jsStrictEq models strict equality ===.  Primitive values are compared
structurally; arrays and objects are compared by reference, and since every
object value produced by the embedded code is freshly allocated, comparison of
two array or object values is modelled as false. -/
def jsStrictEq : JSVal → JSVal → Bool
  | .null, .null => true
  | .undef, .undef => true
  | .bool a, .bool b => a == b
  | .num a, .num b => a == b
  | .str a, .str b => a == b
  | _, _ => false

/-- digitsToNat folds a list of decimal digit characters into a natural
number. -/
def digitsToNat (ds : List Char) : Nat :=
  ds.foldl (fun n c => 10 * n + (c.toNat - 48)) 0

/-- parseDecimal models the numeric prefix parsing of parseFloat on a string:
leading whitespace is skipped, an optional sign, an integer part and an
optional fraction part are consumed, and none (NaN) is returned when no digit
is found.  Exponent notation is not modelled; no claim depends on it. -/
def parseDecimal (s : String) : Option ℚ :=
  let cs := s.data.dropWhile (fun c => c == ' ' || c == '\t' || c == '\n' || c == '\r')
  let signAndRest : ℚ × List Char :=
    match cs with
    | '-' :: rest => (-1, rest)
    | '+' :: rest => (1, rest)
    | _ => (1, cs)
  let sign := signAndRest.1
  let cs1 := signAndRest.2
  let intPart := cs1.takeWhile Char.isDigit
  let rest := cs1.dropWhile Char.isDigit
  let fracPart :=
    match rest with
    | '.' :: r2 => r2.takeWhile Char.isDigit
    | _ => []
  if intPart.isEmpty && fracPart.isEmpty then none
  else some (sign * ((digitsToNat intPart : ℚ) + (digitsToNat fracPart : ℚ) / (10 ^ fracPart.length : ℚ)))

/-- jsToString models JavaScript ToString coercion at the fidelity the claims
need: strings are themselves, primitives print their usual forms, arrays join
their elements with commas and objects print the standard object tag.  The
exact number formatting of JavaScript is approximated by the Rat printer. -/
def jsToString : JSVal → String
  | .null => "null"
  | .undef => "undefined"
  | .bool b => if b then "true" else "false"
  | .num q => toString q
  | .str s => s
  | .arr l => String.intercalate "," (l.map (fun v =>
      match v with
      | .null => ""
      | .undef => ""
      | .bool b => if b then "true" else "false"
      | .num q => toString q
      | .str s => s
      | .arr _ => ""
      | .obj _ => "[object Object]"))
  | .obj _ => "[object Object]"

/-- parseFloat models the JavaScript parseFloat builtin: a number parses to
itself, every other value is coerced to a string and its decimal prefix is
parsed; none stands for NaN. -/
def parseFloat : JSVal → Option ℚ
  | .num q => some q
  | v => parseDecimal (jsToString v)

/-- ValidationBindErrors models the error map type of the source, a plain
JavaScript object from error keys to arbitrary values, as an association
list. -/
abbrev ValidationBindErrors := List (String × JSVal)

/-- ValCtrl is the part of AbstractBindControl that the validators of the
source read: the value of the control.  The full control class is not under
src; every validator in src accesses only control.value. -/
structure ValCtrl where
  value : JSVal

/-- BindValidatorFn mirrors the source type: a function from a control to an
error map or null (none). -/
abbrev BindValidatorFn := ValCtrl → Option ValidationBindErrors

/-- Observable models a single-emission rxjs observable by the value it
delivers.  This is the shallow embedding of the asynchronous layer: an async
validator result is identified with the value it eventually emits. -/
structure Observable (α : Type) where
  lastValue : α

/-- AsyncBindValidatorFn mirrors the source type at the shallow level: a
function from a control to an observable of an error map or null. -/
abbrev AsyncBindValidatorFn := ValCtrl → Observable (Option ValidationBindErrors)

/-- toObservable models the helper of src/projects/ncr-bind-forms/src/shared.ts:
promises are converted to observables and observables pass through; at the
shallow level, where both are identified with their delivered value, it is the
identity. -/
def toObservable (r : Observable α) : Observable α := r

/-- forkJoin models the rxjs combinator on single-emission observables: it
emits the list of the values emitted by its inputs. -/
def forkJoin (ls : List (Observable α)) : Observable (List α) :=
  ⟨ls.map Observable.lastValue⟩

/-- obsMap models the rxjs map operator (the pipe with map in the source). -/
def obsMap (f : α → β) (o : Observable α) : Observable β :=
  ⟨f o.lastValue⟩

/-- isEmptyInputValue embeds the helper of src/unnamed/part_005 lines 16-19:
value == null or value.length === 0; the length check deliberately also works
with arrays. -/
def isEmptyInputValue (value : JSVal) : Bool :=
  jsLooseNull value || (jsLength value == some 0)

/-- lookupE reads the value stored under a key of an error map. -/
def lookupE (k : String) (m : ValidationBindErrors) : Option JSVal :=
  (m.find? (fun e => e.1 == k)).map Prod.snd

/-- jsSpread models the object spread expression: the keys of res keep their
positions and are overridden by errs where errs also defines them, and the
remaining keys of errs are appended in order. -/
def jsSpread (res errs : ValidationBindErrors) : ValidationBindErrors :=
  (res.map (fun e =>
    match lookupE e.1 errs with
    | some v => (e.1, v)
    | none => e)) ++
  errs.filter (fun e => (lookupE e.1 res).isNone)

/-- orElseO takes the first option when present and the second otherwise. -/
def orElseO (a b : Option α) : Option α :=
  match a with
  | some v => some v
  | none => b

/-- mergeRes is the accumulator loop of the merge helper: a fold of the object
spread over the non-null error maps, starting from the empty object. -/
def mergeRes (arrayOfErrors : List (Option ValidationBindErrors)) : ValidationBindErrors :=
  arrayOfErrors.foldl (fun res errors =>
    match errors with
    | some e => jsSpread res e
    | none => res) []

/-- The helper of src/unnamed/part_005 lines 470-480: spread every non-null
error map into an accumulator object and return null when no key was
collected. -/
def _mergeErrors (arrayOfErrors : List (Option ValidationBindErrors)) : Option ValidationBindErrors :=
  let res := mergeRes arrayOfErrors
  if res.length = 0 then none else some res

/-- isPresent embeds the presence test of the source: o != null. -/
def isPresent (o : Option α) : Bool := o.isSome

/-- The helper of src/unnamed/part_005: run every validator on the control. -/
def _executeValidators (control : ValCtrl) (validators : List BindValidatorFn) :
    List (Option ValidationBindErrors) :=
  validators.map (fun v => v control)

/-- The async helper of src/unnamed/part_005 lines 466-468. -/
def _executeAsyncValidators (control : ValCtrl) (validators : List AsyncBindValidatorFn) :
    List (Observable (Option ValidationBindErrors)) :=
  validators.map (fun v => v control)

namespace BindValidators

/-- The min validator of src/unnamed/part_005: null on empty values or an
empty bound, otherwise an error map when the parsed value is below the
bound. -/
def min (m : ℚ) : BindValidatorFn := fun control =>
  if isEmptyInputValue control.value || isEmptyInputValue (JSVal.num m) then
    none
  else
    match parseFloat control.value with
    | none => none
    | some value =>
      if value < m then
        some [("min", .obj [("min", .num m), ("actual", control.value)])]
      else
        none

/-- The max validator of src/unnamed/part_005. -/
def max (m : ℚ) : BindValidatorFn := fun control =>
  if isEmptyInputValue control.value || isEmptyInputValue (JSVal.num m) then
    none
  else
    match parseFloat control.value with
    | none => none
    | some value =>
      if value > m then
        some [("max", .obj [("max", .num m), ("actual", control.value)])]
      else
        none

/-- The required validator of src/unnamed/part_005. -/
def required : BindValidatorFn := fun control =>
  if isEmptyInputValue control.value then some [("required", .bool true)] else none

/-- The requiredTrue validator of src/unnamed/part_005: control.value must be
strictly equal to true. -/
def requiredTrue : BindValidatorFn := fun control =>
  if jsStrictEq control.value (.bool true) then none else some [("required", .bool true)]

/-- The email validator of src/unnamed/part_005.  The regular expression
engine of the host is abstracted as the test function emailTest on the string
coercion of the value. -/
def email (emailTest : String → Bool) : BindValidatorFn := fun control =>
  if isEmptyInputValue control.value then
    none
  else if emailTest (jsToString control.value) then
    none
  else
    some [("email", .bool true)]

/-- jsValOfLength represents the local length variable of the minLength and
maxLength validators: control.value.length when the value is truthy (undefined
when the value has no length) and the number 0 otherwise. -/
def jsValOfLength (v : JSVal) : Option ℚ :=
  if jsTruthy v then (jsLength v).map (fun n => (n : ℚ)) else some 0

/-- jsValOfLengthVal renders that local variable as a JSVal for the error
payload. -/
def jsValOfLengthVal (v : JSVal) : JSVal :=
  match jsValOfLength v with
  | some q => .num q
  | none => JSVal.undef

/-- The minLength validator of src/unnamed/part_005.  A comparison with an
undefined length is false, as in the host language. -/
def minLength (m : ℚ) : BindValidatorFn := fun control =>
  if isEmptyInputValue control.value then
    none
  else
    match jsValOfLength control.value with
    | none => none
    | some length =>
      if length < m then
        some [("minlength", .obj [("requiredLength", .num m), ("actualLength", .num length)])]
      else
        none

/-- The maxLength validator of src/unnamed/part_005; note the absence of an
empty-value early return. -/
def maxLength (m : ℚ) : BindValidatorFn := fun control =>
  match jsValOfLength control.value with
  | none => none
  | some length =>
    if length > m then
      some [("maxlength", .obj [("requiredLength", .num m), ("actualLength", .num length)])]
    else
      none

/-- The nullValidator of src/unnamed/part_005: it performs no operation. -/
def nullValidator : BindValidatorFn := fun _ => none

end BindValidators

/-- JSRegExp models a host RegExp object: its source text, its flags and the
abstract match predicate the host engine gives it. -/
structure JSRegExp where
  source : String
  flags : String
  testFn : String → Bool

/-- JSRegExp.toString models RegExp.prototype.toString. -/
def JSRegExp.toString (r : JSRegExp) : String :=
  "/" ++ r.source ++ "/" ++ r.flags

/-- PatternArg models the argument of the pattern validator: a string, a
RegExp object, or a nullish (null or undefined) argument. -/
inductive PatternArg where
  | nullish : PatternArg
  | ofString (s : String) : PatternArg
  | ofRegExp (r : JSRegExp) : PatternArg

/-- patternFalsy models the truthiness test on the pattern argument: nullish
arguments and the empty string are falsy, RegExp objects and non-empty strings
are truthy. -/
def patternFalsy : PatternArg → Bool
  | .nullish => true
  | .ofString s => s.isEmpty
  | .ofRegExp _ => false

/-- anchorString is the regexStr computation of the string branch of the
pattern validator: a caret is prepended when the first character is not a
caret, and a dollar is appended when the last character is not a dollar. -/
def anchorString (p : String) : String :=
  let withCaret := if p.data.head? = some '^' then p else "^" ++ p
  if p.data.getLast? = some '$' then withCaret else withCaret ++ "$"

/-- patternValidatorFn is the closure returned by the pattern validator: null
on empty values, otherwise an error map carrying the pattern text and the
actual value when the regular expression does not match. -/
def patternValidatorFn (regexStr : String) (test : String → Bool) : BindValidatorFn :=
  fun control =>
    if isEmptyInputValue control.value then
      none
    else if test (jsToString control.value) then
      none
    else
      some [("pattern", .obj [("requiredPattern", .str regexStr), ("actualValue", control.value)])]

namespace BindValidators

/-- The pattern validator of src/unnamed/part_005 lines 360-402.  The RegExp
constructor of the host is abstracted as the compile function from a pattern
string to a match predicate. -/
def pattern (compile : String → String → Bool) (p : PatternArg) : BindValidatorFn :=
  if patternFalsy p then
    BindValidators.nullValidator
  else
    match p with
    | .nullish => BindValidators.nullValidator
    | .ofString s =>
      let regexStr := anchorString s
      patternValidatorFn regexStr (compile regexStr)
    | .ofRegExp r =>
      patternValidatorFn r.toString r.testFn

/-- The compose function of src/unnamed/part_005 lines 415-429: null in, null
out; null when no validator is present; otherwise the merge of the error maps
of the present validators. -/
def compose (validators : Option (List (Option BindValidatorFn))) : Option BindValidatorFn :=
  match validators with
  | none => none
  | some vs =>
    let presentValidators := (vs.filter isPresent).filterMap id
    if presentValidators.length = 0 then
      none
    else
      some (fun control => _mergeErrors (_executeValidators control presentValidators))

/-- The composeAsync function of src/unnamed/part_005 lines 442-455: the
present validators are run, their results are converted to observables, joined
with forkJoin and merged with the error merge helper. -/
def composeAsync (validators : Option (List (Option AsyncBindValidatorFn))) :
    Option AsyncBindValidatorFn :=
  match validators with
  | none => none
  | some vs =>
    let presentValidators := (vs.filter isPresent).filterMap id
    if presentValidators.length = 0 then
      none
    else
      some (fun control =>
        let observables := (_executeAsyncValidators control presentValidators).map toObservable
        obsMap _mergeErrors (forkJoin observables))

end BindValidators

/-- RawBindValidator models the union type BindValidator | BindValidatorFn of
the directive layer: either a plain validator function or an object exposing a
validate method. -/
inductive RawBindValidator where
  | fn (f : BindValidatorFn) : RawBindValidator
  | obj (validateFn : BindValidatorFn) : RawBindValidator

/-- RawAsyncBindValidator is the asynchronous counterpart. -/
inductive RawAsyncBindValidator where
  | fn (f : AsyncBindValidatorFn) : RawAsyncBindValidator
  | obj (validateFn : AsyncBindValidatorFn) : RawAsyncBindValidator

/-- normalizeValidator embeds normalize_validator.ts lines 12-18: an object
with a validate method becomes the function calling that method, a plain
function passes through. -/
def normalizeValidator : RawBindValidator → BindValidatorFn
  | .obj v => fun c => v c
  | .fn f => f

/-- normalizeAsyncValidator embeds normalize_validator.ts lines 20-26. -/
def normalizeAsyncValidator : RawAsyncBindValidator → AsyncBindValidatorFn
  | .obj v => fun c => v c
  | .fn f => f

/-- composeValidators embeds shared.ts lines 182-184: normalize every raw
validator, then compose. -/
def composeValidators (validators : Option (List RawBindValidator)) : Option BindValidatorFn :=
  match validators with
  | some vs => BindValidators.compose (some (vs.map (fun v => some (normalizeValidator v))))
  | none => none

/-- composeAsyncValidators embeds shared.ts lines 186-188. -/
def composeAsyncValidators (validators : Option (List RawAsyncBindValidator)) :
    Option AsyncBindValidatorFn :=
  match validators with
  | some vs => BindValidators.composeAsync (some (vs.map (fun v => some (normalizeAsyncValidator v))))
  | none => none

/-- AccessorKind classifies a value accessor the way selectValueAccessor does:
the default accessor class, one of the six built-in accessor classes, or a
custom accessor. -/
inductive AccessorKind where
  | defaultAcc : AccessorKind
  | builtin : AccessorKind
  | custom : AccessorKind
deriving DecidableEq

/-- ControlBindValueAccessor models a value accessor instance: its
classification plus an identity so that distinct instances are
distinguishable. -/
structure ControlBindValueAccessor where
  kind : AccessorKind
  id : Nat
deriving DecidableEq

/-- selectLoop is the forEach of selectValueAccessor (shared.ts lines
244-258): it threads the default, built-in and custom slots through the list
and throws on a second built-in or a second custom accessor. -/
def selectLoop : List ControlBindValueAccessor →
    Option ControlBindValueAccessor → Option ControlBindValueAccessor →
    Option ControlBindValueAccessor →
    Except String (Option ControlBindValueAccessor × Option ControlBindValueAccessor ×
      Option ControlBindValueAccessor)
  | [], d, b, c => .ok (d, b, c)
  | v :: rest, d, b, c =>
    match v.kind with
    | .defaultAcc => selectLoop rest (some v) b c
    | .builtin =>
      if b.isSome then
        .error "More than one built-in value accessor matches form control with"
      else
        selectLoop rest d (some v) c
    | .custom =>
      if c.isSome then
        .error "More than one custom value accessor matches form control with"
      else
        selectLoop rest d b (some v)

/-- selectValueAccessor embeds shared.ts lines 231-272: null for a missing
list, then the loop, then the priority custom, built-in, default, and an error
when nothing matched. -/
def selectValueAccessor (valueAccessors : Option (List ControlBindValueAccessor)) :
    Except String (Option ControlBindValueAccessor) :=
  match valueAccessors with
  | none => .ok none
  | some l =>
    match selectLoop l none none none with
    | .error e => .error e
    | .ok (d, b, c) =>
      match c with
      | some customAccessor => .ok (some customAccessor)
      | none =>
        match b with
        | some builtinAccessor => .ok (some builtinAccessor)
        | none =>
          match d with
          | some defaultAccessor => .ok (some defaultAccessor)
          | none => .error "No valid value accessor for form control with"

/-- UpdateOn is the update strategy of a control. -/
inductive UpdateOn where
  | change : UpdateOn
  | blur : UpdateOn
  | submit : UpdateOn
deriving DecidableEq

/-- Ctrl models the BindFormControl state that the directive glue reads and
writes.  The BindFormControl class itself (model.ts) is not under src; its
fields are reconstructed from their uses in shared.ts, and its methods
setValue, markAsDirty and markAsTouched are modelled from the spec as the
evident state updates on the value and status fields. -/
structure Ctrl where
  value : JSVal
  updateOn : UpdateOn
  transformer : Option (JSVal → JSVal)
  dirty : Bool
  touched : Bool
  pendingValue : JSVal
  pendingChange : Bool
  pendingDirty : Bool
  pendingTouched : Bool
  validator : Option BindValidatorFn
  asyncValidator : Option AsyncBindValidatorFn

/-- NgBindControl models the directive side that setUpControl consumes: its
selected value accessor and its raw validator arrays. -/
structure NgBindControl where
  valueAccessor : Option ControlBindValueAccessor
  rawValidators : List RawBindValidator
  rawAsyncValidators : List RawAsyncBindValidator

/-- NgBindControl.validator embeds the validator getter that the concrete
directive classes define: composeValidators over the raw validators. -/
def NgBindControl.validator (dir : NgBindControl) : Option BindValidatorFn :=
  composeValidators (some dir.rawValidators)

/-- NgBindControl.asyncValidator embeds the asyncValidator getter of the
concrete directive classes. -/
def NgBindControl.asyncValidator (dir : NgBindControl) : Option AsyncBindValidatorFn :=
  composeAsyncValidators (some dir.rawAsyncValidators)

/-- BoundState is the observable state of one bound control: the control
model, the value held by the view (the last writeValue argument), the log of
writeValue calls, the log of viewToModelUpdate calls on the directive, and the
log of setValue calls on the control.  The logs record when and with which
arguments those operations run. -/
structure BoundState where
  control : Ctrl
  viewValue : JSVal
  viewWrites : List JSVal
  modelUpdates : List JSVal
  setValueCalls : List JSVal

/-- writeValue models dir.valueAccessor.writeValue: the view takes the value
and the call is logged. -/
def writeValue (v : JSVal) (s : BoundState) : BoundState :=
  { s with viewValue := v, viewWrites := s.viewWrites ++ [v] }

/-- updateControl embeds shared.ts lines 127-139.  Note two behaviours of the
source carried over verbatim: when a transformer is present, the pending value
is overwritten with the transformer applied to the pendingChange flag (the
source passes control.pendingChange, not the pending value, as the argument
array), and setValue is called with emitModelToViewChange false, so no view
write happens here.  setValue is modelled from the spec as assigning the
control value. -/
def updateControl (s : BoundState) : BoundState :=
  let s1 :=
    if s.control.pendingDirty then
      { s with control := { s.control with dirty := true } }
    else s
  let s2 :=
    match s1.control.transformer with
    | some f =>
      { s1 with control :=
        { s1.control with pendingValue := f (JSVal.bool s1.control.pendingChange) } }
    | none => s1
  let s3 :=
    { s2 with
      control := { s2.control with value := s2.control.pendingValue },
      setValueCalls := s2.setValueCalls ++ [s2.control.pendingValue] }
  let s4 := { s3 with modelUpdates := s3.modelUpdates ++ [s3.control.pendingValue] }
  { s4 with control := { s4.control with pendingChange := false } }

/-- viewChangeHandler embeds the closure registered by setUpViewChangePipeline
(shared.ts lines 94-112): the incoming view value is transformed when a
transformer is present (and written back to the view when it differs under
strict equality), buffered into the pending fields, and propagated at once
when the strategy is change. -/
def viewChangeHandler (newValue : JSVal) (s : BoundState) : BoundState :=
  let step :=
    match s.control.transformer with
    | some f =>
      let transformedValue := f newValue
      (transformedValue,
        if jsStrictEq transformedValue newValue then s else writeValue transformedValue s)
    | none => (newValue, s)
  let transformedValue := step.1
  let s1 := step.2
  let s2 :=
    { s1 with control :=
      { s1.control with
        pendingValue := transformedValue,
        pendingChange := true,
        pendingDirty := true } }
  if s2.control.updateOn = .change then updateControl s2 else s2

/-- blurHandler embeds the closure registered by setUpBlurPipeline (shared.ts
lines 114-125): the pending touched flag is set, a pending change is
propagated when the strategy is blur, and the control is marked touched unless
the strategy is submit.  markAsTouched is modelled from the spec as setting
the touched flag. -/
def blurHandler (s : BoundState) : BoundState :=
  let s1 := { s with control := { s.control with pendingTouched := true } }
  let s2 :=
    if s1.control.updateOn = .blur ∧ s1.control.pendingChange = true then
      updateControl s1
    else s1
  if s2.control.updateOn ≠ .submit then
    { s2 with control := { s2.control with touched := true } }
  else s2

/-- modelChangeHandler embeds the closure registered by setUpModelChangePipeline
(shared.ts lines 141-156).  A behaviour of the source is carried over
verbatim: when a transformer is present it is invoked as
transformer.apply(undefined, control); the control object has no length
property, so the host calls the transformer with no arguments and its
parameter is undefined.  The (possibly transformed) value is written to the
view, and viewToModelUpdate runs exactly when emitModelEvent is true. -/
def modelChangeHandler (newValue : JSVal) (emitModelEvent : Bool) (s : BoundState) : BoundState :=
  let transformedValue :=
    match s.control.transformer with
    | some f => f JSVal.undef
    | none => newValue
  let s1 := writeValue transformedValue s
  if emitModelEvent then
    { s1 with modelUpdates := s1.modelUpdates ++ [transformedValue] }
  else s1

/-- formSyncPendingControls is the control side of form submission.  Modelled
from the spec: BindFormControl private method syncPendingControls (model.ts is
not under src); per the glossary, the submit strategy propagates a pending
view value into the control model on submission, so a control whose strategy
is submit and which has a pending change receives its pending value through
setValue. -/
def formSyncPendingControls (s : BoundState) : BoundState :=
  if s.control.updateOn = .submit ∧ s.control.pendingChange = true then
    { s with
      control := { s.control with value := s.control.pendingValue },
      setValueCalls := s.setValueCalls ++ [s.control.pendingValue] }
  else s

/-- syncPendingControls embeds shared.ts lines 219-228 for one bound
directive: the form first syncs its controls, then every directive whose
control has the submit strategy and a pending change gets viewToModelUpdate
with the pending value and the pending change flag is cleared. -/
def syncPendingControls (s : BoundState) : BoundState :=
  let s1 := formSyncPendingControls s
  if s1.control.updateOn = .submit ∧ s1.control.pendingChange = true then
    { s1 with
      modelUpdates := s1.modelUpdates ++ [s1.control.pendingValue],
      control := { s1.control with pendingChange := false } }
  else s1

/-- setUpControl embeds shared.ts lines 36-71 up to the pipeline
registrations: the two throwing guards, the composition of the validator
chains onto the control, and the initial writeValue of the control value into
the view.  The registered pipelines themselves are the handler functions
above. -/
def setUpControl (control : Option Ctrl) (dir : NgBindControl) : Except String BoundState :=
  match control with
  | none => .error "Cannot find control with"
  | some c =>
    match dir.valueAccessor with
    | none => .error "No value accessor for form control with"
    | some _ =>
      let c1 :=
        { c with
          validator := BindValidators.compose (some [c.validator, dir.validator]),
          asyncValidator := BindValidators.composeAsync (some [c.asyncValidator, dir.asyncValidator]) }
      .ok
        { control := c1,
          viewValue := c1.value,
          viewWrites := [c1.value],
          modelUpdates := [],
          setValueCalls := [] }

/-- unionLookup reads a key from the merged view of a list of validator
results: the last validator whose error map defines the key wins, null results
contribute nothing. -/
def unionLookup (k : String) (results : List (Option ValidationBindErrors)) : Option JSVal :=
  results.foldl (fun acc r =>
    match r with
    | some e => orElseO (lookupE k e) acc
    | none => acc) none

/-- NullOrNonempty holds of a validator result that is either null or a
non-empty error map. -/
def NullOrNonempty (r : Option ValidationBindErrors) : Prop :=
  r = none ∨ ∃ e, r = some e ∧ e ≠ []

/-- accessorsOfKind filters the value accessors of a given classification. -/
def accessorsOfKind (k : AccessorKind) (l : List ControlBindValueAccessor) :
    List ControlBindValueAccessor :=
  l.filter (fun v => decide (v.kind = k))

/-- demoTransformer is a concrete transformer used to evaluate the pipeline at
specific inputs: it tags every argument with the shape it received, so the
output identifies which value the pipeline actually passed to it. -/
def demoTransformer : JSVal → JSVal
  | .num _ => .str "numArg"
  | .bool b => .str (if b then "boolArgTrue" else "boolArgFalse")
  | .undef => .str "undefArg"
  | _ => .str "otherArg"

/-- demoCtrl builds a control in a given update strategy with the demo
transformer attached and clean status. -/
def demoCtrl (u : UpdateOn) (t : Option (JSVal → JSVal)) : Ctrl :=
  { value := .null
    updateOn := u
    transformer := t
    dirty := false
    touched := false
    pendingValue := JSVal.undef
    pendingChange := false
    pendingDirty := false
    pendingTouched := false
    validator := none
    asyncValidator := none }

/-- demoState builds a bound state around a control with an empty history. -/
def demoState (c : Ctrl) : BoundState :=
  { control := c
    viewValue := .null
    viewWrites := []
    modelUpdates := []
    setValueCalls := [] }

theorem orElseO_none_right (a : Option α) : orElseO a none = a := by
  cases a <;> rfl

theorem orElseO_none_left (b : Option α) : orElseO none b = b := rfl

theorem orElseO_eq_none_iff (a b : Option α) : orElseO a b = none ↔ a = none ∧ b = none := by
  cases a <;> simp [orElseO]

theorem lookupE_nil (k : String) : lookupE k [] = none := rfl

theorem lookupE_cons (k : String) (e : String × JSVal) (m : ValidationBindErrors) :
    lookupE k (e :: m) = if e.1 == k then some e.2 else lookupE k m := by
  cases h : e.1 == k <;> simp [lookupE, List.find?_cons, h]

theorem lookupE_append (k : String) (l1 l2 : ValidationBindErrors) :
    lookupE k (l1 ++ l2) = orElseO (lookupE k l1) (lookupE k l2) := by
  induction l1 with
  | nil => simp [lookupE_nil, orElseO_none_left]
  | cons e l1 ih =>
    rw [List.cons_append, lookupE_cons, lookupE_cons]
    cases h : e.1 == k with
    | true => simp [orElseO]
    | false => simp [ih]

theorem lookupE_map_override (k : String) (a b : ValidationBindErrors) :
    lookupE k (a.map (fun e =>
      match lookupE e.1 b with
      | some v => (e.1, v)
      | none => e)) =
    match lookupE k a with
    | none => none
    | some v => some ((lookupE k b).getD v) := by
  induction a with
  | nil => rfl
  | cons e a ih =>
    rw [List.map_cons, lookupE_cons, lookupE_cons]
    have hfst : (match lookupE e.1 b with
        | some v => (e.1, v)
        | none => e).1 = e.1 := by
      cases lookupE e.1 b <;> rfl
    rw [hfst]
    cases h : e.1 == k with
    | true =>
      have hek : e.1 = k := eq_of_beq h
      subst hek
      cases hb : lookupE e.1 b <;> simp [hb]
    | false => simp [ih]

theorem lookupE_filter_absent (k : String) (a b : ValidationBindErrors) :
    lookupE k (b.filter (fun e => (lookupE e.1 a).isNone)) =
    if (lookupE k a).isNone then lookupE k b else none := by
  induction b with
  | nil =>
    rw [List.filter_nil, lookupE_nil]
    cases h : (lookupE k a).isNone <;> simp [h, lookupE_nil]
  | cons x b ih =>
    rw [List.filter_cons]
    cases hx : (lookupE x.1 a).isNone with
    | true =>
      simp only [hx, if_true, cond_true]
      rw [lookupE_cons, lookupE_cons]
      cases hk : x.1 == k with
      | true =>
        have hxk : x.1 = k := eq_of_beq hk
        subst hxk
        simp [hx]
      | false => simp [ih]
    | false =>
      rw [if_neg (by simp)]
      rw [ih, lookupE_cons]
      cases hk : x.1 == k with
      | true =>
        have hxk : x.1 = k := eq_of_beq hk
        subst hxk
        simp [hx]
      | false => simp

theorem lookupE_jsSpread (k : String) (a b : ValidationBindErrors) :
    lookupE k (jsSpread a b) = orElseO (lookupE k b) (lookupE k a) := by
  unfold jsSpread
  rw [lookupE_append, lookupE_map_override, lookupE_filter_absent]
  cases ha : lookupE k a with
  | none => cases hb : lookupE k b <;> simp [orElseO]
  | some v => cases hb : lookupE k b <;> simp [orElseO]

theorem jsSpread_nil_left (b : ValidationBindErrors) : jsSpread [] b = b := by
  unfold jsSpread
  simp [lookupE_nil]

theorem jsSpread_eq_nil_iff (a b : ValidationBindErrors) :
    jsSpread a b = [] ↔ a = [] ∧ b = [] := by
  constructor
  · intro h
    unfold jsSpread at h
    rcases List.append_eq_nil.mp h with ⟨h1, h2⟩
    have ha : a = [] := List.map_eq_nil_iff.mp h1
    subst ha
    refine ⟨rfl, ?_⟩
    have hb : jsSpread [] b = [] := by
      unfold jsSpread
      rw [List.map_nil, List.nil_append]
      exact h2
    rw [jsSpread_nil_left] at hb
    exact hb
  · rintro ⟨rfl, rfl⟩
    rfl

theorem lookupE_mergeRes_aux (k : String) (rs : List (Option ValidationBindErrors)) :
    ∀ acc : ValidationBindErrors,
      lookupE k (rs.foldl (fun res errors =>
          match errors with
          | some e => jsSpread res e
          | none => res) acc) =
      rs.foldl (fun a r =>
          match r with
          | some e => orElseO (lookupE k e) a
          | none => a) (lookupE k acc) := by
  induction rs with
  | nil => intro acc; rfl
  | cons r rs ih =>
    intro acc
    cases r with
    | none => simpa using ih acc
    | some e =>
      simp only [List.foldl_cons]
      rw [ih (jsSpread acc e), lookupE_jsSpread]

theorem lookupE_mergeRes (k : String) (rs : List (Option ValidationBindErrors)) :
    lookupE k (mergeRes rs) = unionLookup k rs := by
  unfold mergeRes unionLookup
  simpa [lookupE_nil] using lookupE_mergeRes_aux k rs []

theorem mergeRes_aux_eq_nil_iff (rs : List (Option ValidationBindErrors)) :
    ∀ acc : ValidationBindErrors,
      rs.foldl (fun res errors =>
          match errors with
          | some e => jsSpread res e
          | none => res) acc = [] ↔
      (acc = [] ∧ ∀ r ∈ rs, ∀ e, r = some e → e = []) := by
  induction rs with
  | nil => intro acc; simp
  | cons r rs ih =>
    intro acc
    cases r with
    | none =>
      simp only [List.foldl_cons]
      rw [ih acc]
      simp
    | some e =>
      simp only [List.foldl_cons]
      rw [ih (jsSpread acc e), jsSpread_eq_nil_iff]
      constructor
      · rintro ⟨⟨ha, he⟩, hrest⟩
        refine ⟨ha, ?_⟩
        intro r hr e' he'
        rcases List.mem_cons.mp hr with h | h
        · subst h
          cases he'
          exact he
        · exact hrest r h e' he'
      · rintro ⟨ha, hall⟩
        refine ⟨⟨ha, hall (some e) (List.mem_cons_self _ _) e rfl⟩, ?_⟩
        intro r hr e' he'
        exact hall r (List.mem_cons_of_mem _ hr) e' he'

theorem mergeRes_eq_nil_iff (rs : List (Option ValidationBindErrors)) :
    mergeRes rs = [] ↔ ∀ r ∈ rs, ∀ e, r = some e → e = [] := by
  unfold mergeRes
  simpa using mergeRes_aux_eq_nil_iff rs []

theorem unionLookup_aux_eq_none_iff (k : String) (rs : List (Option ValidationBindErrors)) :
    ∀ a : Option JSVal,
      rs.foldl (fun acc r =>
          match r with
          | some e => orElseO (lookupE k e) acc
          | none => acc) a = none ↔
      (a = none ∧ ∀ r ∈ rs, ∀ e, r = some e → lookupE k e = none) := by
  induction rs with
  | nil => intro a; simp
  | cons r rs ih =>
    intro a
    cases r with
    | none =>
      simp only [List.foldl_cons]
      rw [ih a]
      simp
    | some e =>
      simp only [List.foldl_cons]
      rw [ih (orElseO (lookupE k e) a), orElseO_eq_none_iff]
      constructor
      · rintro ⟨⟨he, ha⟩, hrest⟩
        refine ⟨ha, ?_⟩
        intro r hr e' he'
        rcases List.mem_cons.mp hr with h | h
        · subst h
          cases he'
          exact he
        · exact hrest r h e' he'
      · rintro ⟨ha, hall⟩
        refine ⟨⟨hall (some e) (List.mem_cons_self _ _) e rfl, ha⟩, ?_⟩
        intro r hr e' he'
        exact hall r (List.mem_cons_of_mem _ hr) e' he'

theorem unionLookup_eq_none_iff (k : String) (rs : List (Option ValidationBindErrors)) :
    unionLookup k rs = none ↔ ∀ r ∈ rs, ∀ e, r = some e → lookupE k e = none := by
  unfold unionLookup
  simpa using unionLookup_aux_eq_none_iff k rs none

theorem empty_maps_iff_union_empty (rs : List (Option ValidationBindErrors)) :
    (∀ r ∈ rs, ∀ e, r = some e → e = []) ↔ ∀ k, unionLookup k rs = none := by
  constructor
  · intro h k
    rw [unionLookup_eq_none_iff]
    intro r hr e he
    rw [h r hr e he]
    rfl
  · intro h r hr e he
    cases e with
    | nil => rfl
    | cons x xs =>
      have hx := (unionLookup_eq_none_iff x.1 rs).mp (h x.1) r hr _ he
      rw [lookupE_cons] at hx
      simp at hx

theorem compose_none_of_no_present (vs : List (Option BindValidatorFn))
    (h : ((vs.filter isPresent).filterMap id).length = 0) :
    BindValidators.compose (some vs) = none := by
  show (if ((vs.filter isPresent).filterMap id).length = 0 then (none : Option BindValidatorFn)
    else some (fun control =>
      _mergeErrors (_executeValidators control ((vs.filter isPresent).filterMap id)))) = none
  rw [if_pos h]

theorem compose_some_eq (vs : List (Option BindValidatorFn))
    (h : ¬((vs.filter isPresent).filterMap id).length = 0) :
    BindValidators.compose (some vs) =
      some (fun control =>
        _mergeErrors (_executeValidators control ((vs.filter isPresent).filterMap id))) := by
  show (if ((vs.filter isPresent).filterMap id).length = 0 then (none : Option BindValidatorFn)
    else some (fun control =>
      _mergeErrors (_executeValidators control ((vs.filter isPresent).filterMap id)))) = _
  rw [if_neg h]

theorem mergeErrors_eq_none_iff (rs : List (Option ValidationBindErrors)) :
    _mergeErrors rs = none ↔ ∀ k, unionLookup k rs = none := by
  have hdef : _mergeErrors rs = if (mergeRes rs).length = 0 then none else some (mergeRes rs) := rfl
  rw [hdef]
  by_cases hz : (mergeRes rs).length = 0
  · rw [if_pos hz]
    constructor
    · intro _
      exact (empty_maps_iff_union_empty rs).mp ((mergeRes_eq_nil_iff rs).mp (List.length_eq_zero.mp hz))
    · intro _
      rfl
  · rw [if_neg hz]
    constructor
    · intro h
      exact absurd h (by simp)
    · intro hk
      exact absurd (List.length_eq_zero.mpr ((mergeRes_eq_nil_iff rs).mpr
        ((empty_maps_iff_union_empty rs).mpr hk))) hz

theorem lookupE_mergeErrors_some (rs : List (Option ValidationBindErrors))
    (m : ValidationBindErrors) (h : _mergeErrors rs = some m) :
    ∀ k, lookupE k m = unionLookup k rs := by
  have hdef : _mergeErrors rs = if (mergeRes rs).length = 0 then none else some (mergeRes rs) := rfl
  rw [hdef] at h
  by_cases hz : (mergeRes rs).length = 0
  · rw [if_pos hz] at h
    exact absurd h (by simp)
  · rw [if_neg hz] at h
    intro k
    rw [← Option.some.inj h]
    exact lookupE_mergeRes k rs

/-- C2: BindValidators.compose is a pure merge of error maps.  Given null it
returns null; given a list with no present validator it returns null;
otherwise the composed validator returns, on every control, the key-union of
the error maps of the present validators (a later validator overriding an
earlier one on a shared key, expressed through unionLookup), and returns null
exactly when that union is empty.  The composed function is a pure function of
the control, so applying it does not modify the control. -/
theorem compose_is_pure_merge :
    BindValidators.compose none = none
    ∧ (∀ vs : List (Option BindValidatorFn),
        ((vs.filter isPresent).filterMap id).length = 0 →
        BindValidators.compose (some vs) = none)
    ∧ (∀ (vs : List (Option BindValidatorFn)) (f : BindValidatorFn),
        BindValidators.compose (some vs) = some f →
        ∀ c : ValCtrl,
          (f c = none ↔
            ∀ k, unionLookup k (_executeValidators c ((vs.filter isPresent).filterMap id)) = none)
          ∧ (∀ m, f c = some m →
              ∀ k, lookupE k m =
                unionLookup k (_executeValidators c ((vs.filter isPresent).filterMap id)))) := by
  refine ⟨rfl, ?_, ?_⟩
  · intro vs h
    exact compose_none_of_no_present vs h
  · intro vs f hf c
    have hnz : ¬((vs.filter isPresent).filterMap id).length = 0 := by
      intro hz
      rw [compose_none_of_no_present vs hz] at hf
      exact Option.noConfusion hf
    rw [compose_some_eq vs hnz] at hf
    have hfc : f c =
        _mergeErrors (_executeValidators c ((vs.filter isPresent).filterMap id)) := by
      rw [← Option.some.inj hf]
    rw [hfc]
    exact ⟨mergeErrors_eq_none_iff _, fun m hm k => lookupE_mergeErrors_some _ m hm k⟩

/-- C2 witness: the composed validator of the required validator and a
validator reporting a zap error, applied to a control with a null value,
returns the two-entry merged map whose lookup agrees with the union of the
individual results. -/
theorem compose_is_pure_merge_witness :
    lookupE "required" [("required", JSVal.bool true), ("zap", JSVal.bool true)] =
      unionLookup "required"
        (_executeValidators ⟨JSVal.null⟩
          ((([some BindValidators.required,
              some (fun _ => some [("zap", JSVal.bool true)])] :
              List (Option BindValidatorFn)).filter isPresent).filterMap id)) :=
  (compose_is_pure_merge.2.2
      [some BindValidators.required, some (fun _ => some [("zap", JSVal.bool true)])]
      (fun control => _mergeErrors (_executeValidators control
        ((([some BindValidators.required,
            some (fun _ => some [("zap", JSVal.bool true)])] :
            List (Option BindValidatorFn)).filter isPresent).filterMap id)))
      rfl ⟨JSVal.null⟩).2
      [("required", JSVal.bool true), ("zap", JSVal.bool true)] rfl "required"

theorem composeAsync_none_of_no_present (vs : List (Option AsyncBindValidatorFn))
    (h : ((vs.filter isPresent).filterMap id).length = 0) :
    BindValidators.composeAsync (some vs) = none := by
  show (if ((vs.filter isPresent).filterMap id).length = 0 then (none : Option AsyncBindValidatorFn)
    else some (fun control =>
      obsMap _mergeErrors (forkJoin
        ((_executeAsyncValidators control ((vs.filter isPresent).filterMap id)).map toObservable)))) = none
  rw [if_pos h]

theorem composeAsync_some_eq (vs : List (Option AsyncBindValidatorFn))
    (h : ¬((vs.filter isPresent).filterMap id).length = 0) :
    BindValidators.composeAsync (some vs) =
      some (fun control =>
        obsMap _mergeErrors (forkJoin
          ((_executeAsyncValidators control ((vs.filter isPresent).filterMap id)).map toObservable))) := by
  show (if ((vs.filter isPresent).filterMap id).length = 0 then (none : Option AsyncBindValidatorFn)
    else some (fun control =>
      obsMap _mergeErrors (forkJoin
        ((_executeAsyncValidators control ((vs.filter isPresent).filterMap id)).map toObservable)))) = _
  rw [if_neg h]

/-- C5: BindValidators.composeAsync coordinates async validators by merging
their observables: null in or no present validator gives null; otherwise the
returned async validator runs every present validator on the control, converts
the results to observables, joins them with forkJoin, and the joined
observable emits the merge of all the emitted error maps, which is null
exactly when the union of the emitted maps is empty, in particular whenever
every validator emits null. -/
theorem composeAsync_merges_observables :
    BindValidators.composeAsync none = none
    ∧ (∀ vs : List (Option AsyncBindValidatorFn),
        ((vs.filter isPresent).filterMap id).length = 0 →
        BindValidators.composeAsync (some vs) = none)
    ∧ (∀ (vs : List (Option AsyncBindValidatorFn)) (f : AsyncBindValidatorFn),
        BindValidators.composeAsync (some vs) = some f →
        ∀ c : ValCtrl,
          (f c).lastValue =
            _mergeErrors (((vs.filter isPresent).filterMap id).map (fun v => (v c).lastValue))
          ∧ ((∀ v ∈ (vs.filter isPresent).filterMap id, (v c).lastValue = none) →
              (f c).lastValue = none)
          ∧ ((f c).lastValue = none ↔
              ∀ k, unionLookup k
                (((vs.filter isPresent).filterMap id).map (fun v => (v c).lastValue)) = none)) := by
  refine ⟨rfl, ?_, ?_⟩
  · intro vs h
    exact composeAsync_none_of_no_present vs h
  · intro vs f hf c
    have hnz : ¬((vs.filter isPresent).filterMap id).length = 0 := by
      intro hz
      rw [composeAsync_none_of_no_present vs hz] at hf
      exact Option.noConfusion hf
    rw [composeAsync_some_eq vs hnz] at hf
    have hfc : (f c).lastValue =
        _mergeErrors (((vs.filter isPresent).filterMap id).map (fun v => (v c).lastValue)) := by
      rw [← Option.some.inj hf]
      show _mergeErrors
        (((_executeAsyncValidators c ((vs.filter isPresent).filterMap id)).map toObservable).map
          Observable.lastValue) = _
      unfold _executeAsyncValidators toObservable
      rw [List.map_map, List.map_map]
      rfl
    refine ⟨hfc, ?_, ?_⟩
    · intro hall
      rw [hfc, mergeErrors_eq_none_iff]
      intro k
      rw [unionLookup_eq_none_iff]
      intro r hr e he
      rcases List.mem_map.mp hr with ⟨v, hv, hre⟩
      rw [hall v hv] at hre
      rw [← hre] at he
      exact Option.noConfusion he
    · rw [hfc]
      exact mergeErrors_eq_none_iff _

/-- C5 witness: the composition of a single async validator emitting a zonk
error, run on a control with a null value, emits exactly the merge of the
emitted error maps. -/
theorem composeAsync_merges_observables_witness :
    ((fun control =>
      obsMap _mergeErrors (forkJoin
        ((_executeAsyncValidators control
          ((([some (fun _ => ⟨some [("zonk", JSVal.bool true)]⟩)] :
            List (Option AsyncBindValidatorFn)).filter isPresent).filterMap id)).map toObservable)))
        (⟨JSVal.null⟩ : ValCtrl)).lastValue =
      _mergeErrors
        (((([some (fun _ => ⟨some [("zonk", JSVal.bool true)]⟩)] :
          List (Option AsyncBindValidatorFn)).filter isPresent).filterMap id).map
          (fun v => (v (⟨JSVal.null⟩ : ValCtrl)).lastValue)) :=
  (composeAsync_merges_observables.2.2
      [some (fun _ => ⟨some [("zonk", JSVal.bool true)]⟩)]
      (fun control =>
        obsMap _mergeErrors (forkJoin
          ((_executeAsyncValidators control
            ((([some (fun _ => ⟨some [("zonk", JSVal.bool true)]⟩)] :
              List (Option AsyncBindValidatorFn)).filter isPresent).filterMap id)).map toObservable)))
      rfl ⟨JSVal.null⟩).1

/-- C7: every built-in validator, applied to any control, returns either null
or a non-empty error map, and min, max, email, minLength and pattern return
null whenever the control value is empty (null, undefined, or of length
zero), so empty values never fail those checks. -/
theorem builtin_validators_null_or_nonempty :
    ∀ (c : ValCtrl) (m : ℚ) (emailTest : String → Bool)
      (compile : String → String → Bool) (p : PatternArg),
      NullOrNonempty (BindValidators.min m c)
      ∧ NullOrNonempty (BindValidators.max m c)
      ∧ NullOrNonempty (BindValidators.required c)
      ∧ NullOrNonempty (BindValidators.requiredTrue c)
      ∧ NullOrNonempty (BindValidators.email emailTest c)
      ∧ NullOrNonempty (BindValidators.minLength m c)
      ∧ NullOrNonempty (BindValidators.maxLength m c)
      ∧ NullOrNonempty (BindValidators.pattern compile p c)
      ∧ NullOrNonempty (BindValidators.nullValidator c)
      ∧ (isEmptyInputValue c.value = true →
          BindValidators.min m c = none
          ∧ BindValidators.max m c = none
          ∧ BindValidators.email emailTest c = none
          ∧ BindValidators.minLength m c = none
          ∧ BindValidators.pattern compile p c = none) := by
  intro c m emailTest compile p
  have hmin : NullOrNonempty (BindValidators.min m c) := by
    unfold BindValidators.min NullOrNonempty
    split
    · exact Or.inl rfl
    · split
      · exact Or.inl rfl
      · split
        · exact Or.inr ⟨_, rfl, by simp⟩
        · exact Or.inl rfl
  have hmax : NullOrNonempty (BindValidators.max m c) := by
    unfold BindValidators.max NullOrNonempty
    split
    · exact Or.inl rfl
    · split
      · exact Or.inl rfl
      · split
        · exact Or.inr ⟨_, rfl, by simp⟩
        · exact Or.inl rfl
  have hreq : NullOrNonempty (BindValidators.required c) := by
    unfold BindValidators.required NullOrNonempty
    split
    · exact Or.inr ⟨_, rfl, by simp⟩
    · exact Or.inl rfl
  have hreqT : NullOrNonempty (BindValidators.requiredTrue c) := by
    unfold BindValidators.requiredTrue NullOrNonempty
    split
    · exact Or.inl rfl
    · exact Or.inr ⟨_, rfl, by simp⟩
  have hemail : NullOrNonempty (BindValidators.email emailTest c) := by
    unfold BindValidators.email NullOrNonempty
    split
    · exact Or.inl rfl
    · split
      · exact Or.inl rfl
      · exact Or.inr ⟨_, rfl, by simp⟩
  have hminL : NullOrNonempty (BindValidators.minLength m c) := by
    unfold BindValidators.minLength NullOrNonempty
    split
    · exact Or.inl rfl
    · split
      · exact Or.inl rfl
      · split
        · exact Or.inr ⟨_, rfl, by simp⟩
        · exact Or.inl rfl
  have hmaxL : NullOrNonempty (BindValidators.maxLength m c) := by
    unfold BindValidators.maxLength NullOrNonempty
    split
    · exact Or.inl rfl
    · split
      · exact Or.inr ⟨_, rfl, by simp⟩
      · exact Or.inl rfl
  have hpatFn : ∀ rs t, NullOrNonempty (patternValidatorFn rs t c) := by
    intro rs t
    unfold patternValidatorFn NullOrNonempty
    split
    · exact Or.inl rfl
    · split
      · exact Or.inl rfl
      · exact Or.inr ⟨_, rfl, by simp⟩
  have hpat : NullOrNonempty (BindValidators.pattern compile p c) := by
    unfold BindValidators.pattern
    split
    · exact Or.inl rfl
    · cases p with
      | nullish => exact Or.inl rfl
      | ofString s => exact hpatFn _ _
      | ofRegExp r => exact hpatFn _ _
  have hnull : NullOrNonempty (BindValidators.nullValidator c) := Or.inl rfl
  refine ⟨hmin, hmax, hreq, hreqT, hemail, hminL, hmaxL, hpat, hnull, ?_⟩
  intro hempty
  have hpatEmpty : BindValidators.pattern compile p c = none := by
    unfold BindValidators.pattern
    split
    · rfl
    · cases p with
      | nullish => rfl
      | ofString s => simp [patternValidatorFn, hempty]
      | ofRegExp r => simp [patternValidatorFn, hempty]
  exact ⟨by simp [BindValidators.min, hempty], by simp [BindValidators.max, hempty],
    by simp [BindValidators.email, hempty], by simp [BindValidators.minLength, hempty], hpatEmpty⟩

/-- C7 witness: at a control with a null value, min with bound 3 and the email
validator both report no error. -/
theorem builtin_validators_null_or_nonempty_witness :
    BindValidators.min 3 (⟨JSVal.null⟩ : ValCtrl) = none
    ∧ BindValidators.email (fun _ => false) (⟨JSVal.null⟩ : ValCtrl) = none := by
  have h := (builtin_validators_null_or_nonempty ⟨JSVal.null⟩ 3 (fun _ => false)
    (fun _ _ => true) .nullish).2.2.2.2.2.2.2.2.2 rfl
  exact ⟨h.1, h.2.2.1⟩

/-- C10: the pattern validator normalizes its argument: a falsy pattern (a
nullish argument or the empty string) yields nullValidator, which returns null
on every control; a non-empty string is anchored with a leading caret and a
trailing dollar when those characters are not already present at the ends, and
the returned validator tests values against the compiled anchored expression
and reports the anchored string as requiredPattern; a RegExp argument is used
unchanged, with its own test function and its toString as the reported
pattern. -/
theorem pattern_normalizes_argument :
    ∀ compile : String → String → Bool,
      BindValidators.pattern compile .nullish = BindValidators.nullValidator
      ∧ BindValidators.pattern compile (.ofString "") = BindValidators.nullValidator
      ∧ (∀ c, BindValidators.nullValidator c = none)
      ∧ (∀ s : String, s ≠ "" →
          anchorString s =
            (if s.data.head? = some '^' then "" else "^") ++ s ++
              (if s.data.getLast? = some '$' then "" else "$")
          ∧ BindValidators.pattern compile (.ofString s) =
              patternValidatorFn (anchorString s) (compile (anchorString s)))
      ∧ (∀ r : JSRegExp,
          BindValidators.pattern compile (.ofRegExp r) =
            patternValidatorFn r.toString r.testFn)
      ∧ (∀ (regexStr : String) (test : String → Bool) (c : ValCtrl),
          patternValidatorFn regexStr test c =
            if isEmptyInputValue c.value then none
            else if test (jsToString c.value) then none
            else some [("pattern",
              .obj [("requiredPattern", .str regexStr), ("actualValue", c.value)])]) := by
  intro compile
  refine ⟨rfl, rfl, fun c => rfl, ?_, fun r => rfl, fun rs t c => rfl⟩
  intro s hs
  constructor
  · unfold anchorString
    by_cases hh : s.data.head? = some '^' <;> by_cases hl : s.data.getLast? = some '$' <;>
      simp [hh, hl]
  · have hfalsy : ¬(patternFalsy (PatternArg.ofString s) = true) := by
      simp [patternFalsy, String.isEmpty_iff, hs]
    unfold BindValidators.pattern
    rw [if_neg hfalsy]

/-- C10 witness: the string pattern abc is anchored to a caret-dollar wrapped
expression and the returned validator is the anchored closure. -/
theorem pattern_normalizes_argument_witness :
    anchorString "abc" =
      (if ("abc" : String).data.head? = some '^' then "" else "^") ++ "abc" ++
        (if ("abc" : String).data.getLast? = some '$' then "" else "$")
    ∧ BindValidators.pattern (fun _ _ => true) (.ofString "abc") =
        patternValidatorFn (anchorString "abc") ((fun _ _ => true) (anchorString "abc")) :=
  (pattern_normalizes_argument (fun _ _ => true)).2.2.2.1 "abc" (by decide)

theorem accessorsOfKind_cons (k : AccessorKind) (v : ControlBindValueAccessor)
    (l : List ControlBindValueAccessor) :
    accessorsOfKind k (v :: l) =
      if v.kind = k then v :: accessorsOfKind k l else accessorsOfKind k l := by
  unfold accessorsOfKind
  rw [List.filter_cons]
  by_cases h : v.kind = k <;> simp [h]

theorem orElseO_getLast_cons (v : ControlBindValueAccessor)
    (ds : List ControlBindValueAccessor) (d : Option ControlBindValueAccessor) :
    orElseO ((v :: ds).getLast?) d = orElseO ds.getLast? (some v) := by
  cases ds with
  | nil => simp [orElseO]
  | cons w ws =>
    rw [List.getLast?_cons_cons]
    cases h : (w :: ws).getLast? with
    | none =>
      exact absurd h (by simp)
    | some x => simp [orElseO]

theorem selectLoop_ok_spec :
    ∀ (l : List ControlBindValueAccessor) (d b c : Option ControlBindValueAccessor),
      (accessorsOfKind .builtin l).length + (if b.isSome then 1 else 0) ≤ 1 →
      (accessorsOfKind .custom l).length + (if c.isSome then 1 else 0) ≤ 1 →
      selectLoop l d b c = .ok
        (orElseO (accessorsOfKind .defaultAcc l).getLast? d,
         orElseO (accessorsOfKind .builtin l).head? b,
         orElseO (accessorsOfKind .custom l).head? c) := by
  intro l
  induction l with
  | nil =>
    intro d b c _ _
    simp [selectLoop, accessorsOfKind, orElseO]
  | cons v l ih =>
    intro d b c hb hc
    obtain ⟨vk, vid⟩ := v
    cases vk with
    | defaultAcc =>
      have hred : selectLoop (⟨AccessorKind.defaultAcc, vid⟩ :: l) d b c =
          selectLoop l (some ⟨AccessorKind.defaultAcc, vid⟩) b c := rfl
      rw [hred, ih (some ⟨AccessorKind.defaultAcc, vid⟩) b c
        (by simpa [accessorsOfKind_cons] using hb)
        (by simpa [accessorsOfKind_cons] using hc)]
      simp [accessorsOfKind_cons, orElseO_getLast_cons]
    | builtin =>
      cases b with
      | some x =>
        exfalso
        rw [accessorsOfKind_cons] at hb
        simp at hb
      | none =>
        have hred : selectLoop (⟨AccessorKind.builtin, vid⟩ :: l) d none c =
            selectLoop l d (some ⟨AccessorKind.builtin, vid⟩) c := rfl
        rw [accessorsOfKind_cons, if_pos rfl] at hb
        have hb2 : (accessorsOfKind AccessorKind.builtin l).length + 1 + 0 ≤ 1 := hb
        have hnil : accessorsOfKind .builtin l = [] := List.length_eq_zero.mp (by omega)
        rw [hred, ih d (some ⟨AccessorKind.builtin, vid⟩) c (by simp [hnil])
          (by simpa [accessorsOfKind_cons] using hc)]
        simp [accessorsOfKind_cons, hnil, orElseO]
    | custom =>
      cases c with
      | some x =>
        exfalso
        rw [accessorsOfKind_cons] at hc
        simp at hc
      | none =>
        have hred : selectLoop (⟨AccessorKind.custom, vid⟩ :: l) d b none =
            selectLoop l d b (some ⟨AccessorKind.custom, vid⟩) := rfl
        rw [accessorsOfKind_cons, if_pos rfl] at hc
        have hc2 : (accessorsOfKind AccessorKind.custom l).length + 1 + 0 ≤ 1 := hc
        have hnil : accessorsOfKind .custom l = [] := List.length_eq_zero.mp (by omega)
        rw [hred, ih d b (some ⟨AccessorKind.custom, vid⟩)
          (by simpa [accessorsOfKind_cons] using hb) (by simp [hnil])]
        simp [accessorsOfKind_cons, hnil, orElseO]

theorem selectLoop_err_of_two_builtin :
    ∀ (l : List ControlBindValueAccessor) (d b c : Option ControlBindValueAccessor),
      2 ≤ (accessorsOfKind .builtin l).length + (if b.isSome then 1 else 0) →
      ∃ e, selectLoop l d b c = .error e := by
  intro l
  induction l with
  | nil =>
    intro d b c h
    exfalso
    cases b <;> simp [accessorsOfKind] at h
  | cons v l ih =>
    intro d b c h
    obtain ⟨vk, vid⟩ := v
    cases vk with
    | defaultAcc =>
      exact ih (some ⟨AccessorKind.defaultAcc, vid⟩) b c
        (by simpa [accessorsOfKind_cons] using h)
    | builtin =>
      cases b with
      | some x => exact ⟨_, rfl⟩
      | none =>
        refine ih d (some ⟨AccessorKind.builtin, vid⟩) c ?_
        rw [accessorsOfKind_cons] at h
        simp at h ⊢
        omega
    | custom =>
      cases c with
      | some x => exact ⟨_, rfl⟩
      | none =>
        exact ih d b (some ⟨AccessorKind.custom, vid⟩)
          (by simpa [accessorsOfKind_cons] using h)

theorem selectLoop_err_of_two_custom :
    ∀ (l : List ControlBindValueAccessor) (d b c : Option ControlBindValueAccessor),
      2 ≤ (accessorsOfKind .custom l).length + (if c.isSome then 1 else 0) →
      ∃ e, selectLoop l d b c = .error e := by
  intro l
  induction l with
  | nil =>
    intro d b c h
    exfalso
    cases c <;> simp [accessorsOfKind] at h
  | cons v l ih =>
    intro d b c h
    obtain ⟨vk, vid⟩ := v
    cases vk with
    | defaultAcc =>
      exact ih (some ⟨AccessorKind.defaultAcc, vid⟩) b c
        (by simpa [accessorsOfKind_cons] using h)
    | builtin =>
      cases b with
      | some x => exact ⟨_, rfl⟩
      | none =>
        exact ih d (some ⟨AccessorKind.builtin, vid⟩) c
          (by simpa [accessorsOfKind_cons] using h)
    | custom =>
      cases c with
      | some x => exact ⟨_, rfl⟩
      | none =>
        refine ih d b (some ⟨AccessorKind.custom, vid⟩) ?_
        rw [accessorsOfKind_cons] at h
        simp at h ⊢
        omega

/-- C9: selectValueAccessor chooses with the fixed priority custom over
built-in over default: it returns null for a missing accessor list, the single
custom accessor when one is present, otherwise the single built-in accessor,
otherwise the default accessor; and it throws when more than one built-in
accessor matches, when more than one custom accessor matches, or when no
accessor at all matches. -/
theorem selectValueAccessor_priority :
    selectValueAccessor none = .ok none
    ∧ (∀ (l : List ControlBindValueAccessor) (ca : ControlBindValueAccessor),
        accessorsOfKind .custom l = [ca] →
        (accessorsOfKind .builtin l).length ≤ 1 →
        selectValueAccessor (some l) = .ok (some ca))
    ∧ (∀ (l : List ControlBindValueAccessor) (ba : ControlBindValueAccessor),
        accessorsOfKind .custom l = [] →
        accessorsOfKind .builtin l = [ba] →
        selectValueAccessor (some l) = .ok (some ba))
    ∧ (∀ (l : List ControlBindValueAccessor) (da : ControlBindValueAccessor),
        accessorsOfKind .custom l = [] →
        accessorsOfKind .builtin l = [] →
        accessorsOfKind .defaultAcc l = [da] →
        selectValueAccessor (some l) = .ok (some da))
    ∧ (∀ l, 2 ≤ (accessorsOfKind .builtin l).length →
        ∃ e, selectValueAccessor (some l) = .error e)
    ∧ (∀ l, 2 ≤ (accessorsOfKind .custom l).length →
        ∃ e, selectValueAccessor (some l) = .error e)
    ∧ selectValueAccessor (some []) =
        .error "No valid value accessor for form control with" := by
  refine ⟨rfl, ?_, ?_, ?_, ?_, ?_, rfl⟩
  · intro l ca hcu hble
    have hloop := selectLoop_ok_spec l none none none (by simpa using hble)
      (by simp [hcu])
    rw [hcu] at hloop
    simp [selectValueAccessor, hloop, orElseO]
  · intro l ba hcu hbu
    have hloop := selectLoop_ok_spec l none none none (by simp [hbu]) (by simp [hcu])
    rw [hcu, hbu] at hloop
    simp [selectValueAccessor, hloop, orElseO]
  · intro l da hcu hbu hda
    have hloop := selectLoop_ok_spec l none none none (by simp [hbu]) (by simp [hcu])
    rw [hcu, hbu, hda] at hloop
    simp [selectValueAccessor, hloop, orElseO]
  · intro l h
    rcases selectLoop_err_of_two_builtin l none none none (by simpa using h) with ⟨e, he⟩
    exact ⟨e, by simp [selectValueAccessor, he]⟩
  · intro l h
    rcases selectLoop_err_of_two_custom l none none none (by simpa using h) with ⟨e, he⟩
    exact ⟨e, by simp [selectValueAccessor, he]⟩

/-- C9 witness: on the list holding one custom and one default accessor the
custom one wins. -/
theorem selectValueAccessor_priority_witness :
    selectValueAccessor (some [⟨AccessorKind.custom, 0⟩, ⟨AccessorKind.defaultAcc, 1⟩]) =
      .ok (some ⟨AccessorKind.custom, 0⟩) :=
  selectValueAccessor_priority.2.1 [⟨AccessorKind.custom, 0⟩, ⟨AccessorKind.defaultAcc, 1⟩]
    ⟨AccessorKind.custom, 0⟩ (by decide) (by decide)

/-- C6: setUpControl composes the validator chains onto the control: it
throws when the control is absent and when the directive has no value
accessor; otherwise the bound control carries compose of the pair of the
previous control validator and the directive validator, and composeAsync of
the corresponding async pair, and the resulting validator reports the merge of
the error maps of both sources; the directive validator itself is the
composition of the raw validators after normalization, and normalization turns
an object with a validate method into the plain function calling it. -/
theorem setUpControl_composes_validator_chains :
    (∀ dir : NgBindControl, setUpControl none dir = .error "Cannot find control with")
    ∧ (∀ (c : Ctrl) (dir : NgBindControl), dir.valueAccessor = none →
        setUpControl (some c) dir = .error "No value accessor for form control with")
    ∧ (∀ (c : Ctrl) (dir : NgBindControl) (a : ControlBindValueAccessor),
        dir.valueAccessor = some a →
        ∃ s : BoundState, setUpControl (some c) dir = .ok s
          ∧ s.control.validator = BindValidators.compose (some [c.validator, dir.validator])
          ∧ s.control.asyncValidator =
              BindValidators.composeAsync (some [c.asyncValidator, dir.asyncValidator])
          ∧ (∀ f, s.control.validator = some f →
              ∀ vc : ValCtrl, f vc = _mergeErrors (_executeValidators vc
                (([c.validator, dir.validator].filter isPresent).filterMap id))))
    ∧ (∀ dir : NgBindControl, dir.validator =
        BindValidators.compose
          (some (dir.rawValidators.map (fun v => some (normalizeValidator v)))))
    ∧ (∀ (v : BindValidatorFn) (vc : ValCtrl), normalizeValidator (.obj v) vc = v vc)
    ∧ (∀ v : BindValidatorFn, normalizeValidator (.fn v) = v) := by
  refine ⟨fun dir => rfl, ?_, ?_, fun dir => rfl, fun v vc => rfl, fun v => rfl⟩
  · intro c dir h
    simp [setUpControl, h]
  · intro c dir a h
    have hrun : setUpControl (some c) dir = .ok
        { control :=
            { c with
              validator := BindValidators.compose (some [c.validator, dir.validator]),
              asyncValidator :=
                BindValidators.composeAsync (some [c.asyncValidator, dir.asyncValidator]) },
          viewValue := c.value,
          viewWrites := [c.value],
          modelUpdates := [],
          setValueCalls := [] } := by
      simp [setUpControl, h]
    refine ⟨_, hrun, rfl, rfl, ?_⟩
    intro f hf vc
    have hval : BindValidators.compose (some [c.validator, dir.validator]) = some f := hf
    have hnz : ¬(([c.validator, dir.validator].filter isPresent).filterMap id).length = 0 := by
      intro hz
      rw [compose_none_of_no_present _ hz] at hval
      exact Option.noConfusion hval
    rw [compose_some_eq _ hnz] at hval
    rw [← Option.some.inj hval]

/-- C6 witness: binding a control to a directive without a value accessor
throws the no-value-accessor error. -/
theorem setUpControl_composes_validator_chains_witness :
    setUpControl (some (demoCtrl .change none))
      { valueAccessor := none, rawValidators := [], rawAsyncValidators := [] } =
      .error "No value accessor for form control with" :=
  setUpControl_composes_validator_chains.2.1 (demoCtrl .change none)
    { valueAccessor := none, rawValidators := [], rawAsyncValidators := [] } rfl

/-- C1: a view-originated value change is first buffered in the pending
fields, and setValue on the control model runs exactly at the strategy event:
at once on the change event under the change strategy; on blur, provided a
change is pending, under the blur strategy; and on submission through
syncPendingControls, provided a change is pending, under the submit strategy.
Under the blur and submit strategies the view change event itself leaves the
model value and the setValue log untouched. -/
theorem updateOn_gates_model_propagation :
    ∀ (s : BoundState) (v : JSVal),
      (s.control.updateOn ≠ .change →
        (viewChangeHandler v s).control.value = s.control.value
        ∧ (viewChangeHandler v s).setValueCalls = s.setValueCalls
        ∧ (viewChangeHandler v s).modelUpdates = s.modelUpdates
        ∧ (viewChangeHandler v s).control.pendingChange = true
        ∧ (viewChangeHandler v s).control.pendingDirty = true
        ∧ (s.control.transformer = none → (viewChangeHandler v s).control.pendingValue = v)
        ∧ (∀ f, s.control.transformer = some f →
            (viewChangeHandler v s).control.pendingValue = f v))
      ∧ (s.control.updateOn = .change →
          (viewChangeHandler v s).setValueCalls.length = s.setValueCalls.length + 1
          ∧ (s.control.transformer = none →
              (viewChangeHandler v s).setValueCalls = s.setValueCalls ++ [v]
              ∧ (viewChangeHandler v s).control.value = v))
      ∧ (s.control.updateOn = .blur ∧ s.control.pendingChange = true →
          (blurHandler s).setValueCalls.length = s.setValueCalls.length + 1
          ∧ (s.control.transformer = none →
              (blurHandler s).setValueCalls = s.setValueCalls ++ [s.control.pendingValue]
              ∧ (blurHandler s).control.value = s.control.pendingValue))
      ∧ (¬(s.control.updateOn = .blur ∧ s.control.pendingChange = true) →
          (blurHandler s).setValueCalls = s.setValueCalls
          ∧ (blurHandler s).control.value = s.control.value)
      ∧ (s.control.updateOn = .submit ∧ s.control.pendingChange = true →
          (syncPendingControls s).setValueCalls = s.setValueCalls ++ [s.control.pendingValue]
          ∧ (syncPendingControls s).control.value = s.control.pendingValue
          ∧ (syncPendingControls s).modelUpdates = s.modelUpdates ++ [s.control.pendingValue]
          ∧ (syncPendingControls s).control.pendingChange = false)
      ∧ (¬(s.control.updateOn = .submit ∧ s.control.pendingChange = true) →
          syncPendingControls s = s) := by
  intro s v
  obtain ⟨⟨val, uo, tr, di, tou, pv, pc, pd, pt, vd, avd⟩, vv, vw, mu, svc⟩ := s
  cases uo <;> cases tr <;> cases pc <;> cases pd <;>
    simp [viewChangeHandler, updateControl, blurHandler, syncPendingControls,
      formSyncPendingControls, writeValue, apply_ite]

/-- C1 witness: under the submit strategy with a pending change of 7,
submission pushes 7 into the model, logs the setValue call and the
viewToModelUpdate, and clears the pending change flag. -/
theorem updateOn_gates_model_propagation_witness :
    (syncPendingControls (demoState
        { demoCtrl .submit none with pendingChange := true, pendingValue := JSVal.num 7 })).setValueCalls
      = [JSVal.num 7]
    ∧ (syncPendingControls (demoState
        { demoCtrl .submit none with pendingChange := true, pendingValue := JSVal.num 7 })).control.value
      = JSVal.num 7
    ∧ (syncPendingControls (demoState
        { demoCtrl .submit none with pendingChange := true, pendingValue := JSVal.num 7 })).modelUpdates
      = [JSVal.num 7]
    ∧ (syncPendingControls (demoState
        { demoCtrl .submit none with pendingChange := true, pendingValue := JSVal.num 7 })).control.pendingChange
      = false :=
  (updateOn_gates_model_propagation (demoState
      { demoCtrl .submit none with pendingChange := true, pendingValue := JSVal.num 7 })
    JSVal.undef).2.2.2.2.1 ⟨rfl, rfl⟩

/-- C8: a blur event marks the control touched unless the strategy is submit,
in which case only the internal pending touched flag is set; and updateControl
marks the control dirty exactly when a dirty mark is pending. -/
theorem blur_touched_and_pending_dirty_tracking :
    ∀ s : BoundState,
      (s.control.updateOn ≠ .submit →
        (blurHandler s).control.touched = true
        ∧ (blurHandler s).control.pendingTouched = true)
      ∧ (s.control.updateOn = .submit →
          blurHandler s = { s with control := { s.control with pendingTouched := true } })
      ∧ (s.control.pendingDirty = true → (updateControl s).control.dirty = true)
      ∧ (s.control.pendingDirty = false → (updateControl s).control.dirty = s.control.dirty) := by
  intro s
  obtain ⟨⟨val, uo, tr, di, tou, pv, pc, pd, pt, vd, avd⟩, vv, vw, mu, svc⟩ := s
  cases uo <;> cases tr <;> cases pc <;> cases pd <;>
    simp [blurHandler, updateControl, writeValue, apply_ite]

/-- C8 witness: blurring a control under the blur strategy marks it touched,
and blurring one under the submit strategy only sets the pending flag. -/
theorem blur_touched_and_pending_dirty_tracking_witness :
    ((blurHandler (demoState (demoCtrl .blur none))).control.touched = true
      ∧ (blurHandler (demoState (demoCtrl .blur none))).control.pendingTouched = true)
    ∧ blurHandler (demoState (demoCtrl .submit none)) =
        { demoState (demoCtrl .submit none) with control :=
          { (demoState (demoCtrl .submit none)).control with pendingTouched := true } } :=
  ⟨(blur_touched_and_pending_dirty_tracking (demoState (demoCtrl .blur none))).1 (by decide),
   (blur_touched_and_pending_dirty_tracking (demoState (demoCtrl .submit none))).2.1 rfl⟩

/-- C3: evaluation of the view-to-model pipeline at a concrete input with a
transformer attached.  The transformer tags the view value 5 as numArg, so the
transformed value numArg is buffered and written back to the view; but
updateControl then overwrites the pending value with the transformer applied
to the pendingChange flag (the boolean true), so the model receives
boolArgTrue, the transformation of that flag, rather than the transformed view
value. -/
theorem updateControl_transformer_misapplied :
    (viewChangeHandler (JSVal.num 5)
        (demoState (demoCtrl .change (some demoTransformer)))).control.value
      = JSVal.str "boolArgTrue"
    ∧ demoTransformer (JSVal.num 5) = JSVal.str "numArg"
    ∧ (viewChangeHandler (JSVal.num 5)
        (demoState (demoCtrl .change (some demoTransformer)))).control.value
      ≠ JSVal.str "numArg"
    ∧ (viewChangeHandler (JSVal.num 5)
        (demoState (demoCtrl .change (some demoTransformer)))).viewValue
      = JSVal.str "numArg" := by
  have h1 : (viewChangeHandler (JSVal.num 5)
      (demoState (demoCtrl .change (some demoTransformer)))).control.value
    = JSVal.str "boolArgTrue" := rfl
  refine ⟨h1, rfl, ?_, rfl⟩
  rw [h1]
  intro h
  injection h with h2
  exact absurd h2 (by decide)

/-- C4: evaluation of the model-to-view pipeline at a concrete input with a
transformer attached.  The handler invokes the transformer through apply with
the control object in the position of the argument array, so the transformer
runs with no arguments and the view receives the transformation of undefined
instead of the transformation of the new model value 5; viewToModelUpdate
still runs exactly when emitModelEvent is true. -/
theorem modelChange_transformer_receives_no_arguments :
    (modelChangeHandler (JSVal.num 5) true
        (demoState (demoCtrl .change (some demoTransformer)))).viewValue = JSVal.str "undefArg"
    ∧ demoTransformer (JSVal.num 5) = JSVal.str "numArg"
    ∧ (modelChangeHandler (JSVal.num 5) true
        (demoState (demoCtrl .change (some demoTransformer)))).viewValue ≠ JSVal.str "numArg"
    ∧ (modelChangeHandler (JSVal.num 5) true
        (demoState (demoCtrl .change (some demoTransformer)))).modelUpdates
      = [JSVal.str "undefArg"]
    ∧ (modelChangeHandler (JSVal.num 5) false
        (demoState (demoCtrl .change (some demoTransformer)))).modelUpdates = [] := by
  have h1 : (modelChangeHandler (JSVal.num 5) true
      (demoState (demoCtrl .change (some demoTransformer)))).viewValue
    = JSVal.str "undefArg" := rfl
  refine ⟨h1, rfl, ?_, rfl, rfl⟩
  rw [h1]
  intro h
  injection h with h2
  exact absurd h2 (by decide)

end NcrBindForms
